import Mathlib

/-!
Verification development for the stylo logging utility
(src/core/stylo/src/main.rs).

The file shallowly embeds the program: the message-decoding pipeline of
run_daemon (lossy UTF-8 decoding, trimming, space-splitting), a model of
the SQLite-backed log table created by init_db (AUTOINCREMENT ids,
engine-assigned timestamps), and the three entry points run_oneshot,
run_cleanup, and the daemon receive loop.  Theorems at the end settle the
specification claims against these definitions.
-/

namespace Stylo

/-- A byte, as received from the datagram socket. -/
abbrev Byte := Fin 256

/-- The Unicode replacement character U+FFFD used by lossy decoding. -/
def replChar : Char := Char.ofNat 0xFFFD

/-- Whether a byte is a UTF-8 continuation byte (0x80..=0xBF). -/
def isCont (b : Nat) : Bool := 0x80 ≤ b && b ≤ 0xBF

/-- Valid second byte of a 3-byte UTF-8 sequence, given the lead byte
(the ranges that exclude overlong encodings and surrogates). -/
def valid3Cont (b c1 : Nat) : Bool :=
  (b == 0xE0 && 0xA0 ≤ c1 && c1 ≤ 0xBF) ||
  (0xE1 ≤ b && b ≤ 0xEC && isCont c1) ||
  (b == 0xED && 0x80 ≤ c1 && c1 ≤ 0x9F) ||
  (0xEE ≤ b && b ≤ 0xEF && isCont c1)

/-- Valid second byte of a 4-byte UTF-8 sequence, given the lead byte. -/
def valid4Cont (b c1 : Nat) : Bool :=
  (b == 0xF0 && 0x90 ≤ c1 && c1 ≤ 0xBF) ||
  (0xF1 ≤ b && b ≤ 0xF3 && isCont c1) ||
  (b == 0xF4 && 0x80 ≤ c1 && c1 ≤ 0x8F)

/-- Lossy UTF-8 decoding of a byte list, following the semantics of
String::from_utf8_lossy used on line 123 of main.rs: each maximal invalid
subpart is replaced by one U+FFFD, an incomplete sequence at the end of
input is replaced by one U+FFFD. -/
def utf8DecodeAux : List Nat → List Char
  | [] => []
  | b :: rest =>
    if b < 0x80 then Char.ofNat b :: utf8DecodeAux rest
    else if 0xC2 ≤ b && b ≤ 0xDF then
      match rest with
      | [] => [replChar]
      | c1 :: r1 =>
        if isCont c1 then Char.ofNat ((b % 32) * 64 + c1 % 64) :: utf8DecodeAux r1
        else replChar :: utf8DecodeAux (c1 :: r1)
    else if 0xE0 ≤ b && b ≤ 0xEF then
      match rest with
      | [] => [replChar]
      | c1 :: r1 =>
        if valid3Cont b c1 then
          match r1 with
          | [] => [replChar]
          | c2 :: r2 =>
            if isCont c2 then
              Char.ofNat ((b % 16) * 4096 + (c1 % 64) * 64 + c2 % 64) :: utf8DecodeAux r2
            else replChar :: utf8DecodeAux (c2 :: r2)
        else replChar :: utf8DecodeAux (c1 :: r1)
    else if 0xF0 ≤ b && b ≤ 0xF4 then
      match rest with
      | [] => [replChar]
      | c1 :: r1 =>
        if valid4Cont b c1 then
          match r1 with
          | [] => [replChar]
          | c2 :: r2 =>
            if isCont c2 then
              match r2 with
              | [] => [replChar]
              | c3 :: r3 =>
                if isCont c3 then
                  Char.ofNat ((b % 8) * 262144 + (c1 % 64) * 4096 + (c2 % 64) * 64 + c3 % 64) ::
                    utf8DecodeAux r3
                else replChar :: utf8DecodeAux (c3 :: r3)
            else replChar :: utf8DecodeAux (c2 :: r2)
        else replChar :: utf8DecodeAux (c1 :: r1)
    else replChar :: utf8DecodeAux rest

/-- Lossy UTF-8 decoding of the received bytes (String::from_utf8_lossy). -/
def utf8Lossy (bs : List Byte) : List Char := utf8DecodeAux (bs.map Fin.val)

/-- The Unicode White_Space property, as used by str::trim in Rust
(char::is_whitespace). -/
def rustIsWs (c : Char) : Bool :=
  let n := c.toNat
  n == 0x09 || n == 0x0A || n == 0x0B || n == 0x0C || n == 0x0D || n == 0x20 ||
  n == 0x85 || n == 0xA0 || n == 0x1680 || (0x2000 ≤ n && n ≤ 0x200A) ||
  n == 0x2028 || n == 0x2029 || n == 0x202F || n == 0x205F || n == 0x3000

/-- str::trim of line 124 of main.rs: remove leading and trailing
whitespace characters. -/
def rustTrim (l : List Char) : List Char :=
  ((l.dropWhile rustIsWs).reverse.dropWhile rustIsWs).reverse

/-- Find the first space character of a list: returns the part before it
and the part after it, or none if the list has no space. -/
def breakAtSpace : List Char → Option (List Char × List Char)
  | [] => none
  | c :: rest =>
    if c = ' ' then some ([], rest)
    else (breakAtSpace rest).map (fun pr => (c :: pr.1, pr.2))

/-- msg_trimmed.splitn(3, ' ') of line 126 of main.rs: split into at most
three parts at the first two space characters; the third part keeps any
further spaces. -/
def splitn3 (l : List Char) : List (List Char) :=
  match breakAtSpace l with
  | none => [l]
  | some (a, r) =>
    match breakAtSpace r with
    | none => [a, r]
    | some (b, r2) => [a, b, r2]

/-- Lines 126-137 of main.rs applied to the trimmed text: if the split
yields exactly three parts they become (source, severity, message),
otherwise the whole trimmed text becomes the message under the sentinels
"unknown" and "RAW". -/
def decodeTrimmed (t : List Char) : String × String × String :=
  match splitn3 t with
  | [a, b, c] => (String.mk a, String.mk b, String.mk c)
  | _ => ("unknown", "RAW", String.mk t)

/-- The full message-decoding pipeline of run_daemon (lines 123-137 of
main.rs): lossy UTF-8 decode, trim, split, fallback. -/
def decodeBytes (bs : List Byte) : String × String × String :=
  decodeTrimmed (rustTrim (utf8Lossy bs))

/-- Encode an ASCII string as the byte list of its code points, for
concrete test payloads. -/
def asciiBytes (s : String) : List Byte :=
  s.data.map (fun c => (⟨c.toNat % 256, Nat.mod_lt _ (by norm_num)⟩ : Byte))

/-- Modelled from the spec: find the first whitespace character of a list
(spec section 4.2 describes the split as happening at whitespace
boundaries, not specifically at space characters).  Used only to compare
the spec's description of the decoder with the code's behaviour. -/
def breakAtWs : List Char → Option (List Char × List Char)
  | [] => none
  | c :: rest =>
    if rustIsWs c then some ([], rest)
    else (breakAtWs rest).map (fun pr => (c :: pr.1, pr.2))

/-- Modelled from the spec: split into at most three parts on the first
two whitespace boundaries, per the spec's wording for the Message
Decoder. -/
def specSplit3 (l : List Char) : List (List Char) :=
  match breakAtWs l with
  | none => [l]
  | some (a, r) =>
    match breakAtWs r with
    | none => [a, r]
    | some (b, r2) => [a, b, r2]

/-- Modelled from the spec: the Message Decoder as the spec's words
describe it (lossy decode, trim, split on the first two whitespace
boundaries, sentinel fallback), for comparison against decodeBytes. -/
def specDecodeBytes (bs : List Byte) : String × String × String :=
  match specSplit3 (rustTrim (utf8Lossy bs)) with
  | [a, b, c] => (String.mk a, String.mk b, String.mk c)
  | _ => ("unknown", "RAW", String.mk (rustTrim (utf8Lossy bs)))

/-! ## Storage model

The SQLite table created by init_db (main.rs lines 60-69):

  CREATE TABLE IF NOT EXISTS logs (
      id INTEGER PRIMARY KEY AUTOINCREMENT,
      timestamp DATETIME DEFAULT CURRENT_TIMESTAMP,
      source TEXT NOT NULL, severity TEXT NOT NULL, message TEXT NOT NULL)

AUTOINCREMENT assigns each inserted row an id strictly greater than every
id ever used in the table (tracked by an engine-side sequence that
deletions do not rewind); DEFAULT CURRENT_TIMESTAMP stamps each row with
the engine clock at insert time.  The engine itself is the black-box
collaborator of the program; its table state is modelled explicitly. -/

/-- One row of the logs table. -/
structure LogRow where
  id : Nat
  timestamp : Int
  source : String
  severity : String
  message : String
deriving DecidableEq, Repr

/-- The durable state of the storage target: the logs table content, the
AUTOINCREMENT sequence, whether the schema has been created, and the
persistent journal mode. -/
structure LogDb where
  tableCreated : Bool
  rows : List LogRow
  nextSeq : Nat
  journalWal : Bool
deriving DecidableEq, Repr

/-- A storage target that has never been opened: Connection::open creates
it empty; AUTOINCREMENT ids start at 1. -/
def freshDb : LogDb :=
  { tableCreated := false, rows := [], nextSeq := 1, journalWal := false }

/-- An open connection: the database state it sees plus its per-connection
busy-timeout setting. -/
structure Connection where
  db : LogDb
  busyTimeout : Nat
deriving DecidableEq, Repr

/-- init_db (main.rs lines 54-71): open the storage target (creating it if
absent), set busy_timeout to 5000, set journal_mode to WAL, and create the
logs table if it does not exist. -/
def init_db (store : Option LogDb) : Connection :=
  let d0 := store.getD freshDb
  let d1 := { d0 with journalWal := true }
  let d2 := if d1.tableCreated then d1 else { d1 with tableCreated := true }
  { db := d2, busyTimeout := 5000 }

/-- One INSERT INTO logs (source, severity, message) VALUES (?1, ?2, ?3):
the engine assigns the id from its sequence and the timestamp from its
clock (the now argument); the caller supplies only the three strings.
Returns the updated table state and the assigned id. -/
def dbInsert (db : LogDb) (now : Int) (s v m : String) : LogDb × Nat :=
  ({ db with
      rows := db.rows ++ [{ id := db.nextSeq, timestamp := now,
                            source := s, severity := v, message := m }],
      nextSeq := db.nextSeq + 1 },
   db.nextSeq)

/-- DELETE FROM logs WHERE timestamp < datetime('now', '-24 hours')
(main.rs lines 89-92), generalised over the age threshold in seconds:
removes exactly the rows strictly older than the threshold and returns
how many were removed.  The AUTOINCREMENT sequence is not rewound. -/
def dbDeleteOlderThan (db : LogDb) (now : Int) (age : Int) : LogDb × Nat :=
  let kept := db.rows.filter (fun r => ¬ r.timestamp < now - age)
  ({ db with rows := kept }, db.rows.length - kept.length)

/-- VACUUM (main.rs line 97): rewrites the file to reclaim space; the
logical table content is unchanged. -/
def dbVacuum (db : LogDb) : LogDb := db

/-- run_oneshot (main.rs lines 73-80): open via init_db, insert the three
argument strings, return the resulting connection state. -/
def run_oneshot (store : Option LogDb) (now : Int) (source severity message : String) :
    Connection :=
  let conn := init_db store
  { conn with db := (dbInsert conn.db now source severity message).1 }

/-- The observable maintenance steps of run_cleanup, in order. -/
inductive MaintOp where
  | deleteOld (count : Nat)
  | vacuum
deriving DecidableEq, Repr

/-- run_cleanup (main.rs lines 82-101): open via init_db, delete rows
older than 24 hours reporting the count, then VACUUM.  Returns the final
connection, the reported count and the ordered trace of maintenance
steps. -/
def run_cleanup (store : Option LogDb) (now : Int) :
    Connection × Nat × List MaintOp :=
  let conn := init_db store
  let del := dbDeleteOlderThan conn.db now 86400
  let db2 := dbVacuum del.1
  ({ conn with db := db2 }, del.2, [MaintOp.deleteOld del.2, MaintOp.vacuum])

/-! ## Daemon model

run_daemon (main.rs lines 103-142).  Startup opens the store, removes any
stale socket file, binds the socket, then enters the receive loop.  Each
loop iteration either receives a datagram (truncated by the channel to
the 4096-byte buffer) or a transport error.  A received payload is
decoded and inserted; the result of the insert is discarded with a
let-underscore binding.  A transport error is written to stderr. -/

/-- One event observed by the receive loop: a datagram with the engine
clock at that moment and a fault flag saying whether this insert fails
(lock contention or I/O error), or a transport-level receive error. -/
inductive RecvEvent where
  | ok (payload : List Byte) (now : Int) (insertFails : Bool)
  | err (msg : String)
deriving DecidableEq, Repr

/-- The daemon's observable state: its connection and the diagnostic
output (stderr lines) it has written. -/
structure DaemonState where
  conn : Connection
  stderr : List String
deriving DecidableEq, Repr

/-- One iteration of the receive loop (main.rs lines 120-141): decode the
truncated payload and insert it, discarding any insert error without
output; on a receive error, write a diagnostic line. -/
def daemonStep (st : DaemonState) : RecvEvent → DaemonState
  | RecvEvent.err e =>
    { st with stderr := st.stderr ++ ["Socket read error: " ++ e] }
  | RecvEvent.ok payload now insertFails =>
    let t := decodeBytes (payload.take 4096)
    if insertFails then st
    else
      { st with conn :=
          { st.conn with db := (dbInsert st.conn.db now t.1 t.2.1 t.2.2).1 } }

/-- The receive loop run over a finite prefix of its (endless) event
stream. -/
def runDaemonLoop (st : DaemonState) (es : List RecvEvent) : DaemonState :=
  es.foldl daemonStep st

/-- The socket-side actions of daemon startup, in program order. -/
inductive StartAction where
  | removeStaleSocket
  | bindSocket
deriving DecidableEq, Repr

/-- The environment daemon startup runs in: the storage target, an
injected init_db failure (permissions, disk, corruption), whether a stale
socket file is present, and the socket-side actions performed so far. -/
structure DaemonWorld where
  store : Option LogDb
  openFail : Option String
  staleSocketPresent : Bool
  actions : List StartAction
deriving DecidableEq, Repr

/-- Line 104 of main.rs: let conn = init_db()? — either the connection,
or the open error propagated by the question-mark operator. -/
def openStoreStep (w : DaemonWorld) : Except String (DaemonWorld × Connection) :=
  match w.openFail with
  | some e => Except.error e
  | none => Except.ok (w, init_db w.store)

/-- Line 108 of main.rs: best-effort removal of a stale socket file. -/
def removeStaleStep (w : DaemonWorld) : DaemonWorld :=
  { w with staleSocketPresent := false,
           actions := w.actions ++ [StartAction.removeStaleSocket] }

/-- Line 111 of main.rs: bind the datagram socket. -/
def bindStep (w : DaemonWorld) : DaemonWorld :=
  { w with actions := w.actions ++ [StartAction.bindSocket] }

/-- Daemon startup (main.rs lines 103-117) in program order: open the
store first; only on success remove the stale socket and bind. -/
def run_daemon_startup (w : DaemonWorld) : Except String (DaemonWorld × Connection) :=
  match openStoreStep w with
  | Except.error e => Except.error e
  | Except.ok (w1, conn) => Except.ok (bindStep (removeStaleStep w1), conn)

/-- The storage invariant maintained by the engine: row ids are pairwise
distinct and every id ever assigned is below the AUTOINCREMENT
sequence. -/
def DbInv (db : LogDb) : Prop :=
  (db.rows.map LogRow.id).Nodup ∧ ∀ r ∈ db.rows, r.id < db.nextSeq

instance (db : LogDb) : Decidable (DbInv db) := by
  unfold DbInv; infer_instance

/-- One invocation of the one-shot writer: its three argument strings and
the engine clock at the moment its insert transaction runs. -/
structure OneshotCall where
  now : Int
  source : String
  severity : String
  message : String
deriving DecidableEq, Repr

/-- N one-shot writers hitting the same store concurrently, in the order
the engine serializes their insert transactions: WAL mode plus the
busy-timeout make each contending writer block and retry, so the effect
is the writers' inserts applied one after another in some order.  Each
writer runs the whole of run_oneshot (open, then insert). -/
def oneshotSeq (db : LogDb) (ws : List OneshotCall) : LogDb :=
  ws.foldl (fun d w => (run_oneshot (some d) w.now w.source w.severity w.message).db) db

/-- A row aged 25 hours at clock 360000 (timestamp 360000 - 90000). -/
def row25h : LogRow :=
  { id := 1, timestamp := 270000, source := "boot", severity := "INFO", message := "old entry" }

/-- A row aged 23 hours at clock 360000. -/
def row23h : LogRow :=
  { id := 2, timestamp := 277200, source := "web", severity := "WARN", message := "kept entry" }

/-- A row aged 1 hour at clock 360000. -/
def row1h : LogRow :=
  { id := 3, timestamp := 356400, source := "web", severity := "INFO", message := "fresh entry" }

/-- A store holding rows aged 25h, 23h and 1h at clock 360000, for the
retention example. -/
def cleanupDemoDb : LogDb :=
  { tableCreated := true, rows := [row25h, row23h, row1h], nextSeq := 4, journalWal := true }

/-- A startup environment whose storage target cannot be opened. -/
def storageDownWorld : DaemonWorld :=
  { store := none, openFail := some "storage unavailable",
    staleSocketPresent := true, actions := [] }

/-! ## Helper lemmas -/

theorem length_filter_not {α : Type} (p q : α → Bool) (hpq : ∀ a, q a = !(p a))
    (l : List α) :
    (l.filter q).length + (l.filter p).length = l.length := by
  induction l with
  | nil => simp
  | cons a l ih =>
    cases hp : p a <;> simp [List.filter_cons, hp, hpq a, ih] <;> omega

theorem head?_dropWhile_false (p : Char → Bool) (l : List Char) :
    ∀ c, (l.dropWhile p).head? = some c → p c = false := by
  induction l with
  | nil => intro c h; simp [List.dropWhile] at h
  | cons a l ih =>
    intro c h
    by_cases ha : p a
    · exact ih c (by simpa [List.dropWhile, ha] using h)
    · simp [List.dropWhile, ha] at h
      simpa [h] using ha

theorem getLast?_dropWhile_of_some (p : Char → Bool) (l : List Char) :
    ∀ c, (l.dropWhile p).getLast? = some c → l.getLast? = some c := by
  induction l with
  | nil => intro c h; simp [List.dropWhile] at h
  | cons a t ih =>
    intro c h
    by_cases ha : p a
    · have h2 := ih c (by simpa [List.dropWhile, ha] using h)
      rw [List.getLast?_cons, h2]
      rfl
    · simpa [List.dropWhile, ha] using h

theorem rustTrim_head (l : List Char) :
    ∀ c, (rustTrim l).head? = some c → rustIsWs c = false := by
  intro c h
  unfold rustTrim at h
  rw [List.head?_reverse] at h
  have h2 := getLast?_dropWhile_of_some rustIsWs _ c h
  rw [List.getLast?_reverse] at h2
  exact head?_dropWhile_false rustIsWs l c h2

theorem rustTrim_last (l : List Char) :
    ∀ c, (rustTrim l).getLast? = some c → rustIsWs c = false := by
  intro c h
  unfold rustTrim at h
  rw [List.getLast?_reverse] at h
  exact head?_dropWhile_false rustIsWs _ c h

theorem breakAtSpace_none {l : List Char} (h : breakAtSpace l = none) : ' ' ∉ l := by
  induction l with
  | nil => simp
  | cons c rest ih =>
    by_cases hc : c = ' '
    · simp [breakAtSpace, hc] at h
    · simp [breakAtSpace, hc, Option.map_eq_none] at h
      exact by simpa [hc] using ⟨fun heq => hc heq.symm, ih h⟩

theorem breakAtSpace_some {l : List Char} :
    ∀ {a r}, breakAtSpace l = some (a, r) → ' ' ∉ a ∧ l = a ++ ' ' :: r := by
  induction l with
  | nil => intro a r h; simp [breakAtSpace] at h
  | cons c rest ih =>
    intro a r h
    by_cases hc : c = ' '
    · subst hc
      simp [breakAtSpace] at h
      obtain ⟨rfl, rfl⟩ := h
      exact ⟨by simp, rfl⟩
    · rcases hbr : breakAtSpace rest with _ | ⟨pre, post⟩
      · simp [breakAtSpace, hc, hbr] at h
      · simp [breakAtSpace, hc, hbr] at h
        obtain ⟨rfl, rfl⟩ := h
        obtain ⟨h1, h2⟩ := ih hbr
        refine ⟨?_, by simp [h2]⟩
        intro hm
        rcases List.mem_cons.mp hm with h3 | h3
        · exact hc h3.symm
        · exact h1 h3

theorem breakAtSpace_append {a : List Char} (r : List Char) (h : ' ' ∉ a) :
    breakAtSpace (a ++ ' ' :: r) = some (a, r) := by
  induction a with
  | nil => simp [breakAtSpace]
  | cons c pre ih =>
    have hc : ¬ c = ' ' := fun hcc => h (by simp [hcc])
    have hpre : ' ' ∉ pre := fun hm => h (by simp [hm])
    simp [breakAtSpace, hc, ih hpre]

theorem init_db_preserves (d : LogDb) :
    (init_db (some d)).db.rows = d.rows ∧ (init_db (some d)).db.nextSeq = d.nextSeq := by
  by_cases h : d.tableCreated <;> simp [init_db, h]

theorem dbInsert_inv (db : LogDb) (now : Int) (s v m : String) (h : DbInv db) :
    DbInv (dbInsert db now s v m).1 := by
  obtain ⟨h1, h2⟩ := h
  constructor
  · show ((db.rows ++ [_]).map LogRow.id).Nodup
    rw [List.map_append]
    refine List.Nodup.append h1 (List.nodup_singleton _) ?_
    intro x hx hx2
    simp at hx2
    obtain ⟨r, hr, hrid⟩ := List.mem_map.mp hx
    rw [hx2] at hrid
    exact absurd (hrid ▸ h2 r hr) (lt_irrefl _)
  · intro r hr
    show r.id < db.nextSeq + 1
    rcases List.mem_append.mp hr with hr2 | hr2
    · exact Nat.lt_succ_of_lt (h2 r hr2)
    · simp at hr2
      rw [hr2]
      exact Nat.lt_succ_self _

theorem dbDelete_inv (db : LogDb) (now age : Int) (h : DbInv db) :
    DbInv (dbDeleteOlderThan db now age).1 := by
  obtain ⟨h1, h2⟩ := h
  constructor
  · exact List.Nodup.sublist ((List.filter_sublist _).map _) h1
  · intro r hr
    exact h2 r (List.mem_of_mem_filter hr)

theorem init_db_inv (db : LogDb) (h : DbInv db) : DbInv (init_db (some db)).db := by
  obtain ⟨hr, hn⟩ := init_db_preserves db
  unfold DbInv
  rw [hr, hn]
  exact h

theorem oneshotSeq_spec :
    ∀ (ws : List OneshotCall) (db : LogDb), DbInv db →
      DbInv (oneshotSeq db ws)
      ∧ ∃ fresh, (oneshotSeq db ws).rows = db.rows ++ fresh ∧ fresh.length = ws.length := by
  intro ws
  induction ws with
  | nil => intro db h; exact ⟨h, [], by simp [oneshotSeq], rfl⟩
  | cons w ws ih =>
    intro db h
    have hfold : oneshotSeq db (w :: ws)
        = oneshotSeq (run_oneshot (some db) w.now w.source w.severity w.message).db ws := rfl
    have hinv0 : DbInv (init_db (some db)).db := init_db_inv db h
    have hinv1 : DbInv (run_oneshot (some db) w.now w.source w.severity w.message).db :=
      dbInsert_inv _ _ _ _ _ hinv0
    have hrows1 : (run_oneshot (some db) w.now w.source w.severity w.message).db.rows
        = db.rows ++ [{ id := (init_db (some db)).db.nextSeq, timestamp := w.now,
                        source := w.source, severity := w.severity, message := w.message }] := by
      show ((init_db (some db)).db.rows ++ [_]) = _
      rw [(init_db_preserves db).1]
    obtain ⟨hinv2, fresh, hfresh, hlen⟩ := ih _ hinv1
    rw [hfold]
    refine ⟨hinv2, { id := (init_db (some db)).db.nextSeq, timestamp := w.now,
                     source := w.source, severity := w.severity, message := w.message } :: fresh,
            ?_, by simp [hlen]⟩
    rw [hfresh, hrows1]
    simp

theorem splitn3_spec (t : List Char) :
    1 ≤ (splitn3 t).length ∧ (splitn3 t).length ≤ 3
    ∧ (∀ a b c, splitn3 t = [a, b, c] →
        ' ' ∉ a ∧ ' ' ∉ b ∧ t = a ++ ' ' :: (b ++ ' ' :: c)) := by
  rcases h1 : breakAtSpace t with _ | ⟨a0, r0⟩
  · simp only [splitn3, h1]
    exact ⟨by simp, by simp, by intro a b c h; simp at h⟩
  · rcases h2 : breakAtSpace r0 with _ | ⟨b0, r2⟩
    · simp only [splitn3, h1, h2]
      refine ⟨by simp, by simp, ?_⟩
      intro a b c h
      simp at h
    · simp only [splitn3, h1, h2]
      refine ⟨by simp, by simp, ?_⟩
      intro a b c h
      obtain ⟨ha, hb, hc⟩ : a0 = a ∧ b0 = b ∧ r2 = c := by simpa using h
      subst ha; subst hb; subst hc
      obtain ⟨hna, hta⟩ := breakAtSpace_some h1
      obtain ⟨hnb, htb⟩ := breakAtSpace_some h2
      exact ⟨hna, hnb, by rw [hta, htb]⟩

theorem decodeTrimmed_three {t a b c : List Char} (h : splitn3 t = [a, b, c]) :
    decodeTrimmed t = (String.mk a, String.mk b, String.mk c) := by
  unfold decodeTrimmed
  rw [h]

theorem decodeTrimmed_fallback {t : List Char} (h : (splitn3 t).length ≠ 3) :
    decodeTrimmed t = ("unknown", "RAW", String.mk t) := by
  unfold decodeTrimmed
  rcases hs : splitn3 t with _ | ⟨x, _ | ⟨y, _ | ⟨z, _ | ⟨w, ws⟩⟩⟩⟩
  · rfl
  · rfl
  · rfl
  · exact absurd (by rw [hs]; rfl) h
  · rfl

/-! ## Claim theorems -/

/-- C2 (counterexample): the claim describes the decoder as splitting the
trimmed text on the first two whitespace boundaries, but the code splits
only on space characters (splitn(3, ' ') on line 126 of main.rs).  On the
payload "a\tb c d" the code keeps the tab inside the first field and
yields ("a\tb", "c", "d"), while the whitespace-boundary description
yields ("a", "b", "c d"). -/
theorem decoder_not_whitespace_split :
    decodeBytes (asciiBytes "a\tb c d") = ("a\tb", "c", "d")
    ∧ specDecodeBytes (asciiBytes "a\tb c d") = ("a", "b", "c d")
    ∧ decodeBytes (asciiBytes "a\tb c d") ≠ specDecodeBytes (asciiBytes "a\tb c d") :=
  ⟨by decide, by decide, by decide⟩

/-- C2 (amended): for every received payload, the decoder lossily decodes
it to text, trims leading and trailing whitespace, and splits the trimmed
text into at most three parts on the first two space characters; if
exactly three parts result they map to (source, severity, message) — so
source and severity contain no space and the message is the verbatim
remainder after the second space — and otherwise the whole trimmed text
becomes the message with source "unknown" and severity "RAW". -/
theorem decoder_splits_on_space_chars :
    (∀ bs : List Byte,
      1 ≤ (splitn3 (rustTrim (utf8Lossy bs))).length
      ∧ (splitn3 (rustTrim (utf8Lossy bs))).length ≤ 3
      ∧ (∀ a b c, splitn3 (rustTrim (utf8Lossy bs)) = [a, b, c] →
          decodeBytes bs = (String.mk a, String.mk b, String.mk c)
          ∧ ' ' ∉ a ∧ ' ' ∉ b
          ∧ rustTrim (utf8Lossy bs) = a ++ ' ' :: (b ++ ' ' :: c))
      ∧ ((splitn3 (rustTrim (utf8Lossy bs))).length ≠ 3 →
          decodeBytes bs = ("unknown", "RAW", String.mk (rustTrim (utf8Lossy bs))))
      ∧ (∀ c, (rustTrim (utf8Lossy bs)).head? = some c → rustIsWs c = false)
      ∧ (∀ c, (rustTrim (utf8Lossy bs)).getLast? = some c → rustIsWs c = false))
    ∧ decodeBytes (asciiBytes "web ERROR disk full") = ("web", "ERROR", "disk full") := by
  refine ⟨?_, by decide⟩
  intro bs
  obtain ⟨hlen1, hlen3, hparts⟩ := splitn3_spec (rustTrim (utf8Lossy bs))
  refine ⟨hlen1, hlen3, ?_, ?_, rustTrim_head _, rustTrim_last _⟩
  · intro a b c h
    obtain ⟨hna, hnb, ht⟩ := hparts a b c h
    exact ⟨decodeTrimmed_three h, hna, hnb, ht⟩
  · intro h
    exact decodeTrimmed_fallback h

/-- C3: the message decoding step is pure and total — a function on byte
sequences — producing exactly one triple for every input, including the
empty payload, a non-UTF-8 payload and a single-word payload, with no
error path. -/
theorem decoder_total :
    (∀ bs : List Byte, ∃ s v m : String, decodeBytes bs = (s, v, m)
      ∧ ∀ s2 v2 m2, decodeBytes bs = (s2, v2, m2) → s2 = s ∧ v2 = v ∧ m2 = m)
    ∧ decodeBytes [] = ("unknown", "RAW", "")
    ∧ decodeBytes [(0xFF : Byte)] = ("unknown", "RAW", String.mk [replChar])
    ∧ decodeBytes (asciiBytes "malformed") = ("unknown", "RAW", "malformed") := by
  refine ⟨?_, by decide, by decide, by decide⟩
  intro bs
  refine ⟨(decodeBytes bs).1, (decodeBytes bs).2.1, (decodeBytes bs).2.2, rfl, ?_⟩
  intro s2 v2 m2 h
  refine ⟨?_, ?_, ?_⟩ <;> rw [h]

/-- C8: when the trimmed payload's first two space separators are
consecutive (the shape a ++ "  " ++ rest with no space in a), the split
still yields exactly three parts with an empty severity, and the daemon
persists the record with the empty-string field directly instead of going
through the unknown/RAW fallback. -/
theorem daemon_consecutive_space_split
    (bs : List Byte) (a rest : List Char) (st : DaemonState) (now : Int)
    (ha : ' ' ∉ a)
    (ht : rustTrim (utf8Lossy (bs.take 4096)) = a ++ ' ' :: ' ' :: rest) :
    splitn3 (rustTrim (utf8Lossy (bs.take 4096))) = [a, [], rest]
    ∧ decodeBytes (bs.take 4096) = (String.mk a, "", String.mk rest)
    ∧ (daemonStep st (RecvEvent.ok bs now false)).conn.db.rows
        = st.conn.db.rows ++ [{ id := st.conn.db.nextSeq, timestamp := now,
                                source := String.mk a, severity := "",
                                message := String.mk rest }]
    ∧ decodeBytes (bs.take 4096)
        ≠ ("unknown", "RAW", String.mk (rustTrim (utf8Lossy (bs.take 4096)))) := by
  have hsplit : splitn3 (rustTrim (utf8Lossy (bs.take 4096))) = [a, [], rest] := by
    rw [ht]
    unfold splitn3
    rw [breakAtSpace_append (' ' :: rest) ha]
    simp [breakAtSpace]
  have hdec : decodeBytes (bs.take 4096) = (String.mk a, "", String.mk rest) := by
    show decodeTrimmed (rustTrim (utf8Lossy (bs.take 4096))) = _
    rw [decodeTrimmed_three hsplit]
  refine ⟨hsplit, hdec, ?_, ?_⟩
  · show (if false then st else
      { st with conn := { st.conn with
          db := (dbInsert st.conn.db now (decodeBytes (bs.take 4096)).1
                  (decodeBytes (bs.take 4096)).2.1 (decodeBytes (bs.take 4096)).2.2).1 } }).conn.db.rows = _
    rw [if_neg (by simp), hdec]
    rfl
  · rw [hdec]
    intro hcontra
    have : ("" : String) = "RAW" := congrArg (fun p => p.2.1) hcontra
    simp at this

/-- C8 (witness): the payload "a  b" has consecutive spaces as its first
two separators and decodes to ("a", "", "b"). -/
theorem daemon_consecutive_space_split_witness :
    ' ' ∉ ['a']
    ∧ rustTrim (utf8Lossy ((asciiBytes "a  b").take 4096)) = ['a'] ++ ' ' :: ' ' :: ['b']
    ∧ decodeBytes ((asciiBytes "a  b").take 4096) = (String.mk ['a'], "", String.mk ['b']) := by
  refine ⟨by decide, by decide, ?_⟩
  exact (daemon_consecutive_space_split (asciiBytes "a  b") ['a'] ['b']
      { conn := init_db none, stderr := [] } 0 (by decide) (by decide)).2.1

/-- C1 (counterexample): the claim says a failed insert is logged to the
daemon's diagnostic output, but the code discards the insert result with
a let-underscore binding (lines 128 and 133 of main.rs): after a message
whose insert fails, the daemon's stderr is unchanged — still empty — and
the whole daemon state is exactly as before. -/
theorem daemon_insert_failure_not_logged :
    (daemonStep { conn := init_db none, stderr := [] }
        (RecvEvent.ok (asciiBytes "web ERROR disk full") 0 true)).stderr = ([] : List String)
    ∧ daemonStep { conn := init_db none, stderr := [] }
        (RecvEvent.ok (asciiBytes "web ERROR disk full") 0 true)
      = { conn := init_db none, stderr := [] } :=
  ⟨by decide, by decide⟩

/-- C1 (amended): for every received message whose insert into the store
fails, the daemon silently discards the failure — nothing is written to
its diagnostic output — and continues the loop; a per-message write
failure never terminates the daemon, and the next received message is
still decoded and inserted. -/
theorem daemon_insert_failure_isolated :
    (∀ (st : DaemonState) (p : List Byte) (n : Int) (es : List RecvEvent),
      daemonStep st (RecvEvent.ok p n true) = st
      ∧ (daemonStep st (RecvEvent.ok p n true)).stderr = st.stderr
      ∧ runDaemonLoop st (RecvEvent.ok p n true :: es) = runDaemonLoop st es)
    ∧ (∀ (st : DaemonState) (q : List Byte) (n : Int),
      (daemonStep st (RecvEvent.ok q n false)).conn.db.rows
        = st.conn.db.rows
          ++ [{ id := st.conn.db.nextSeq, timestamp := n,
                source := (decodeBytes (q.take 4096)).1,
                severity := (decodeBytes (q.take 4096)).2.1,
                message := (decodeBytes (q.take 4096)).2.2 }]) :=
  ⟨fun _ _ _ _ => ⟨rfl, rfl, rfl⟩, fun _ _ _ => rfl⟩

/-- C4: the Retention Sweep deletes exactly the rows strictly older than
the 24-hour window, reports the count of rows removed, and reclaims space
only after the deletion; rows at or newer than 24 hours of age remain.
With rows aged 25h, 23h and 1h it removes only the 25h row and reports
count 1. -/
theorem run_cleanup_retention :
    (∀ (st : Option LogDb) (now : Int),
      (run_cleanup st now).1.db.rows
          = (init_db st).db.rows.filter (fun r => ¬ r.timestamp < now - 86400)
      ∧ (∀ r, r ∈ (run_cleanup st now).1.db.rows ↔
            r ∈ (init_db st).db.rows ∧ ¬ r.timestamp < now - 86400)
      ∧ (run_cleanup st now).2.1
          = ((init_db st).db.rows.filter (fun r => r.timestamp < now - 86400)).length
      ∧ (run_cleanup st now).2.2
          = [MaintOp.deleteOld ((run_cleanup st now).2.1), MaintOp.vacuum])
    ∧ run_cleanup (some cleanupDemoDb) 360000
        = ({ db := { cleanupDemoDb with rows := [row23h, row1h] }, busyTimeout := 5000 }, 1,
           [MaintOp.deleteOld 1, MaintOp.vacuum]) := by
  refine ⟨?_, by decide⟩
  intro st now
  refine ⟨rfl, ?_, ?_, rfl⟩
  · intro r
    show r ∈ (init_db st).db.rows.filter (fun r => ¬ r.timestamp < now - 86400) ↔ _
    simp [List.mem_filter]
  · have hc : (run_cleanup st now).2.1
        = (init_db st).db.rows.length
          - ((init_db st).db.rows.filter (fun r => ¬ r.timestamp < now - 86400)).length := rfl
    have h := length_filter_not (fun r : LogRow => decide (r.timestamp < now - 86400))
        (fun r : LogRow => decide (¬ r.timestamp < now - 86400))
        (fun r => by simp only [decide_not]) (init_db st).db.rows
    rw [hc]
    omega

/-- C5: every successful insert stores a row whose id is strictly greater
than every id previously assigned in that store, deletions never rewind
the id sequence, the invariant is preserved, and the stored timestamp is
the engine clock — the same whatever strings the caller passes. -/
theorem dbInsert_fresh_monotone_id
    (db : LogDb) (now : Int) (s v m : String) (hinv : DbInv db) :
    (∀ r ∈ db.rows, r.id < (dbInsert db now s v m).2)
    ∧ DbInv (dbInsert db now s v m).1
    ∧ (dbDeleteOlderThan db now 86400).1.nextSeq = db.nextSeq
    ∧ DbInv (dbDeleteOlderThan db now 86400).1
    ∧ (dbInsert db now s v m).1.rows
        = db.rows ++ [{ id := db.nextSeq, timestamp := now,
                        source := s, severity := v, message := m }]
    ∧ (∀ s2 v2 m2, ((dbInsert db now s2 v2 m2).1.rows.map LogRow.timestamp)
        = ((dbInsert db now s v m).1.rows.map LogRow.timestamp)) := by
  refine ⟨fun r hr => hinv.2 r hr, dbInsert_inv db now s v m hinv, rfl,
          dbDelete_inv db now 86400 hinv, rfl, ?_⟩
  intro s2 v2 m2
  simp [dbInsert]

/-- C5 (witness): on the freshly initialised store the invariant holds
and an insert appends one engine-stamped row. -/
theorem dbInsert_fresh_monotone_id_witness :
    DbInv (init_db none).db
    ∧ (dbInsert (init_db none).db 42 "web" "ERROR" "disk full").1.rows
        = (init_db none).db.rows
          ++ [{ id := (init_db none).db.nextSeq, timestamp := 42,
                source := "web", severity := "ERROR", message := "disk full" }] := by
  refine ⟨by decide, ?_⟩
  exact (dbInsert_fresh_monotone_id (init_db none).db 42 "web" "ERROR"
      "disk full" (by decide)).2.2.2.2.1

/-- C6: opening the same storage target twice is idempotent — the second
init_db returns the identical connection state, alters no rows and does
not move the id sequence — and a one-shot insert after a daemon-style
open still sees the schema in place. -/
theorem init_db_idempotent :
    (∀ st : Option LogDb, init_db (some (init_db st).db) = init_db st)
    ∧ (∀ db : LogDb, (init_db (some db)).db.rows = db.rows
        ∧ (init_db (some db)).db.nextSeq = db.nextSeq)
    ∧ (run_oneshot (some (init_db none).db) 7 "cron" "INFO" "tick").db.rows
        = [{ id := 1, timestamp := 7, source := "cron", severity := "INFO", message := "tick" }] := by
  refine ⟨?_, init_db_preserves, by decide⟩
  intro st
  rcases st with _ | d
  · decide
  · obtain ⟨tc, rows, seq, wal⟩ := d
    cases tc <;> simp [init_db]

/-- C7: N one-shot writers whose insert transactions the engine
serializes (WAL plus the 5000 ms busy wait make contending writers block
and retry rather than fail) all succeed, leaving exactly N new rows with
pairwise distinct ids appended to the store; init_db indeed configures
the 5000 ms busy-wait budget. -/
theorem concurrent_oneshots_serialize
    (db : LogDb) (ws : List OneshotCall) (hinv : DbInv db) :
    (oneshotSeq db ws).rows.length = db.rows.length + ws.length
    ∧ ((oneshotSeq db ws).rows.map LogRow.id).Nodup
    ∧ (∃ fresh, (oneshotSeq db ws).rows = db.rows ++ fresh ∧ fresh.length = ws.length)
    ∧ DbInv (oneshotSeq db ws)
    ∧ (∀ st : Option LogDb, (init_db st).busyTimeout = 5000) := by
  obtain ⟨hinv2, fresh, hfresh, hlen⟩ := oneshotSeq_spec ws db hinv
  refine ⟨?_, hinv2.1, ⟨fresh, hfresh, hlen⟩, hinv2, fun st => rfl⟩
  rw [hfresh, List.length_append, hlen]

/-- C7 (witness): two serialized one-shot writers on a fresh store leave
two rows with distinct ids. -/
theorem concurrent_oneshots_serialize_witness :
    DbInv (init_db none).db
    ∧ (oneshotSeq (init_db none).db
        [⟨1, "web", "INFO", "one"⟩, ⟨2, "db", "WARN", "two"⟩]).rows.length
        = (init_db none).db.rows.length + 2
    ∧ ((oneshotSeq (init_db none).db
        [⟨1, "web", "INFO", "one"⟩, ⟨2, "db", "WARN", "two"⟩]).rows.map LogRow.id).Nodup := by
  refine ⟨by decide, ?_, ?_⟩
  · exact (concurrent_oneshots_serialize (init_db none).db _ (by decide)).1
  · exact (concurrent_oneshots_serialize (init_db none).db _ (by decide)).2.1

/-- C9: when opening or configuring the storage target fails at daemon
startup, run_daemon returns that error before removing the stale socket
or binding the channel — no socket-side action is performed; on success
the stale-socket removal and the bind happen after the open, in that
order. -/
theorem daemon_startup_storage_failure_first :
    (∀ (w : DaemonWorld) (e : String), w.openFail = some e →
      run_daemon_startup w = Except.error e)
    ∧ (∀ w : DaemonWorld, w.openFail = none →
      run_daemon_startup w
        = Except.ok
            ({ w with
                 staleSocketPresent := false,
                 actions := w.actions
                   ++ [StartAction.removeStaleSocket, StartAction.bindSocket] },
             init_db w.store))
    ∧ run_daemon_startup storageDownWorld = Except.error "storage unavailable" := by
  refine ⟨?_, ?_, rfl⟩
  · intro w e h
    simp [run_daemon_startup, openStoreStep, h]
  · intro w h
    simp [run_daemon_startup, openStoreStep, h, removeStaleStep, bindStep]

/-- C10: the one-shot writer inserts its three string arguments verbatim
and without validation: for every store state and every triple of
strings, empty ones included, it persists exactly one new row whose
source, severity and message equal the arguments unchanged. -/
theorem run_oneshot_verbatim :
    (∀ (st : Option LogDb) (now : Int) (s v m : String),
      (run_oneshot st now s v m).db.rows
        = (init_db st).db.rows
          ++ [{ id := (init_db st).db.nextSeq, timestamp := now,
                source := s, severity := v, message := m }])
    ∧ (∀ (d : LogDb) (now : Int) (s v m : String),
      (run_oneshot (some d) now s v m).db.rows
        = d.rows ++ [{ id := d.nextSeq, timestamp := now,
                       source := s, severity := v, message := m }])
    ∧ (run_oneshot (some (init_db none).db) 5 "" "" "").db.rows
        = [{ id := 1, timestamp := 5, source := "", severity := "", message := "" }] := by
  refine ⟨fun st now s v m => rfl, ?_, by decide⟩
  intro d now s v m
  show (init_db (some d)).db.rows
      ++ [{ id := (init_db (some d)).db.nextSeq, timestamp := now,
            source := s, severity := v, message := m }] = _
  rw [(init_db_preserves d).1, (init_db_preserves d).2]

end Stylo
